import Mathlib

/-!
# Verification of the hinge-monitor crawl-and-classify pipeline

Shallow embedding of the sitemap-based scraper (`hinge-monitor.js`, the
axios+cheerio generation exported via `module.exports`), the legacy
puppeteer monitor's classifier, the audience-tag updater
(`unnamed/part_000`) and the intelligence generator
(`hinge-intelligence-generator.js`).

Strings are modelled as `List Char` (JS strings are treated as ASCII
sequences; all constants in the source are ASCII).  External effects
(HTTP fetches, cheerio extraction, `crypto.md5`, `date-fns` parsing, the
system clock) are modelled as oracle parameters: the control flow around
them is embedded faithfully from the source.
-/

namespace HingeMonitor

/-- Character list of a string literal (JS strings as char sequences). -/
def cl (s : String) : List Char := s.data

/-- `litPref needle hay`: `needle` occurs at the start of `hay`. -/
def litPref : List Char → List Char → Bool
  | [], _ => true
  | _ :: _, [] => false
  | a :: as, b :: bs => a = b && litPref as bs

/-- `hasSub hay needle`: JS `hay.includes(needle)` (substring containment). -/
def hasSub (hay needle : List Char) : Bool :=
  litPref needle hay ||
    match hay with
    | [] => false
    | _ :: t => hasSub t needle

/-- JS `String.prototype.toLowerCase` restricted to ASCII input. -/
def lower (s : List Char) : List Char := s.map Char.toLower

theorem litPref_iff (n h : List Char) : litPref n h = true ↔ ∃ t, n ++ t = h := by
  induction n generalizing h with
  | nil => simp [litPref]
  | cons a as ih =>
    cases h with
    | nil => simp [litPref]
    | cons b bs =>
      simp only [litPref, Bool.and_eq_true, decide_eq_true_eq, ih]
      constructor
      · rintro ⟨rfl, t, rfl⟩
        exact ⟨t, rfl⟩
      · rintro ⟨t, ht⟩
        injection ht with h1 h2
        exact ⟨h1, t, h2⟩

theorem hasSub_iff (h n : List Char) :
    hasSub h n = true ↔ ∃ pre post, pre ++ n ++ post = h := by
  induction h with
  | nil =>
    simp only [hasSub, litPref_iff, Bool.or_eq_true]
    constructor
    · rintro (⟨t, ht⟩ | hfalse)
      · exact ⟨[], t, by simpa using ht⟩
      · cases hfalse
    · rintro ⟨pre, post, hp⟩
      rcases List.append_eq_nil.mp (List.append_eq_nil.mp hp).1 with ⟨h1, h2⟩
      exact Or.inl ⟨post, by simp [h2, (List.append_eq_nil.mp hp).2]⟩
  | cons c t ih =>
    simp only [hasSub, Bool.or_eq_true, litPref_iff, ih]
    constructor
    · rintro (⟨tl, htl⟩ | ⟨pre, post, hp⟩)
      · exact ⟨[], tl, by simpa using htl⟩
      · exact ⟨c :: pre, post, by simp [← hp]⟩
    · rintro ⟨pre, post, hp⟩
      cases pre with
      | nil => exact Or.inl ⟨post, by simpa using hp⟩
      | cons p ps =>
        injection hp with h1 h2
        exact Or.inr ⟨ps, post, h2⟩

/-! ## Strategic topics (`hinge-intelligence-generator.js`, lines 18–60) -/

/-- `STRATEGIC_TOPICS.clinical`. -/
def clinicalTopics : List (List Char) :=
  [cl "chronic pain", cl "back pain", cl "knee pain", cl "hip pain",
   cl "shoulder pain", cl "neck pain", cl "behavioral health",
   cl "mental health", cl "pelvic health", cl "pelvic floor",
   cl "arthritis", cl "sciatica", cl "tendonitis", cl "osteoarthritis",
   cl "physical therapy", cl "exercise therapy", cl "pain management",
   cl "pain relief", cl "musculoskeletal", cl "msk care",
   cl "fall prevention", cl "injury prevention"]

/-- `STRATEGIC_TOPICS.business`. -/
def businessTopics : List (List Char) :=
  [cl "employer", cl "employers", cl "cost savings", cl "roi",
   cl "return on investment", cl "member engagement",
   cl "employee engagement", cl "utilization", cl "outcomes",
   cl "claims", cl "medical claims", cl "healthcare costs",
   cl "total cost", cl "productivity", cl "absenteeism",
   cl "presenteeism", cl "disability", cl "benefits", cl "health plan",
   cl "wellness program"]

/-- `STRATEGIC_TOPICS.technology`. -/
def technologyTopics : List (List Char) :=
  [cl "digital health", cl "digital msk", cl "telehealth",
   cl "telemedicine", cl "virtual", cl "ai", cl "artificial intelligence",
   cl "machine learning", cl "computer vision", cl "remote monitoring",
   cl "wearable", cl "sensor", cl "motion tracking", cl "app",
   cl "mobile", cl "platform", cl "technology", cl "enso",
   cl "truemotion"]

/-- `STRATEGIC_TOPICS.market`. -/
def marketTopics : List (List Char) :=
  [cl "msk", cl "value-based care", cl "population health",
   cl "clinical outcomes", cl "patient outcomes", cl "evidence-based",
   cl "research", cl "study", cl "clinical study", cl "white paper",
   cl "report", cl "partnership", cl "integration", cl "provider network"]

/-- Per-category phrase hits returned by `extractStrategicTopics`. -/
structure TopicHits where
  clinical : List (List Char)
  business : List (List Char)
  technology : List (List Char)
  market : List (List Char)
deriving DecidableEq

/-- `extractStrategicTopics(text)`: lowercases the text and collects, per
category, the phrases contained in it as substrings (push order =
table order, i.e. `filter`). -/
def extractStrategicTopics (text : List Char) : TopicHits :=
  let tl := lower text
  { clinical := clinicalTopics.filter (fun p => hasSub tl p)
    business := businessTopics.filter (fun p => hasSub tl p)
    technology := technologyTopics.filter (fun p => hasSub tl p)
    market := marketTopics.filter (fun p => hasSub tl p) }

/-- C8: for every text and every phrase of the four fixed category lists,
`extractStrategicTopics` reports the phrase in that category exactly when
the phrase occurs verbatim (modulo ASCII lowercasing) as a contiguous
substring of the text — raw substring containment, with no word-boundary
or token semantics. -/
theorem extractStrategicTopics_exact (text p : List Char) :
    (p ∈ clinicalTopics →
      (p ∈ (extractStrategicTopics text).clinical ↔
        ∃ pre post, pre ++ p ++ post = lower text)) ∧
    (p ∈ businessTopics →
      (p ∈ (extractStrategicTopics text).business ↔
        ∃ pre post, pre ++ p ++ post = lower text)) ∧
    (p ∈ technologyTopics →
      (p ∈ (extractStrategicTopics text).technology ↔
        ∃ pre post, pre ++ p ++ post = lower text)) ∧
    (p ∈ marketTopics →
      (p ∈ (extractStrategicTopics text).market ↔
        ∃ pre post, pre ++ p ++ post = lower text)) := by
  refine ⟨fun hp => ?_, fun hp => ?_, fun hp => ?_, fun hp => ?_⟩ <;>
    simp [extractStrategicTopics, List.mem_filter, hp, hasSub_iff]

/-- C8 witness: `"Our AI-powered care platform"` matches the phrase `"ai"`
in the technology category (substring semantics, no word boundary). -/
theorem extractStrategicTopics_exact_witness :
    cl "ai" ∈ (extractStrategicTopics (cl "Our AI-powered care platform")).technology :=
  ((extractStrategicTopics_exact (cl "Our AI-powered care platform")
      (cl "ai")).2.2.1 (by decide)).mpr
    ⟨cl "our ", cl "-powered care platform", by decide⟩

/-! ## Content type classification

`determineContentType` of the sitemap scraper (`hinge-monitor.js`,
lines 920–933) and the legacy puppeteer monitor's variant
(`hinge-monitor.js`, lines 198–210). -/

/-- Sitemap scraper's `determineContentType(url)`: first matching path
fragment wins; no fragment ⇒ `'other'`.  Substring tests are on the raw
(uncased) URL, exactly as in the source. -/
def determineContentType (url : List Char) : List Char :=
  if hasSub url (cl "/articles/") then cl "article"
  else if hasSub url (cl "/case-studies/") then cl "case-study"
  else if hasSub url (cl "/press-releases/") then cl "press-release"
  else if hasSub url (cl "/glossary/") then cl "glossary"
  else if hasSub url (cl "/support/") then cl "support"
  else if hasSub url (cl "/webinars/") || hasSub url (cl "-webinar/") then cl "webinar"
  else if hasSub url (cl "/whitepapers/") then cl "report-guide"
  else if hasSub url (cl "/testimonials/") then cl "testimonial"
  else if hasSub url (cl "/for-organizations/") then cl "for-organizations"
  else if hasSub url (cl "/acquisition/") then cl "acquisition"
  else if hasSub url (cl "/for-individuals/") then cl "for-individuals"
  else cl "other"

/-- The path fragments tested by the sitemap scraper's rule table. -/
def ctFragments : List (List Char) :=
  [cl "/articles/", cl "/case-studies/", cl "/press-releases/",
   cl "/glossary/", cl "/support/", cl "/webinars/", cl "-webinar/",
   cl "/whitepapers/", cl "/testimonials/", cl "/for-organizations/",
   cl "/acquisition/", cl "/for-individuals/"]

/-- The closed label set of the sitemap scraper's rule table. -/
def ctLabels : List (List Char) :=
  [cl "article", cl "case-study", cl "press-release", cl "glossary",
   cl "support", cl "webinar", cl "report-guide", cl "testimonial",
   cl "for-organizations", cl "acquisition", cl "for-individuals",
   cl "other"]

/-- The `metadata` argument of the legacy `determineContentType(url, metadata)`
(`hinge-monitor.js` lines 198–210): only `.type` and `.title` are read. -/
structure MetaInfo where
  mtype : Option (List Char)
  title : Option (List Char)
deriving DecidableEq

/-- Legacy monitor's `determineContentType(url, metadata = {})`: lowercased
URL/title tests; default label is `'article'`, not `'other'`.  (The
source binds `urlLower`/`titleLower` once; the terms are inlined here.) -/
def determineContentTypeLegacy (url : List Char) (md : MetaInfo) : List Char :=
  if hasSub (lower url) (cl "/blog/") || md.mtype = some (cl "blog") then cl "blog"
  else if hasSub (lower url) (cl "/case-stud") || hasSub (lower (md.title.getD [])) (cl "case study") then cl "case-study"
  else if hasSub (lower url) (cl "/whitepaper") || hasSub (lower (md.title.getD [])) (cl "whitepaper") then cl "whitepaper"
  else if hasSub (lower url) (cl "/guide") || hasSub (lower (md.title.getD [])) (cl "guide") then cl "guide"
  else if hasSub (lower url) (cl "/video") || md.mtype = some (cl "video") then cl "video"
  else if hasSub (lower url) (cl "/webinar") || hasSub (lower (md.title.getD [])) (cl "webinar") then cl "webinar"
  else cl "article"

/-- Labels of the legacy variant. -/
def ctLegacyLabels : List (List Char) :=
  [cl "blog", cl "case-study", cl "whitepaper", cl "guide", cl "video",
   cl "webinar", cl "article"]

/-- An if-then-else lands in a list when both branches do. -/
theorem ite_mem_of {α : Type} (c : Prop) [Decidable c] (a b : α) (L : List α)
    (ha : a ∈ L) (hb : b ∈ L) : (if c then a else b) ∈ L := by
  by_cases h : c <;> simp [h, ha, hb]

/-- C9 counterexample: the legacy `determineContentType` variant
(`hinge-monitor.js` lines 198–210, cited by the claim) returns `'article'`,
not `'other'`, on a URL matching none of its rules. -/
theorem determineContentTypeLegacy_default_not_other :
    determineContentTypeLegacy
        (cl "https://www.hingehealth.com/resources/foo") ⟨none, none⟩ =
      cl "article" ∧
    cl "article" ≠ cl "other" := by
  constructor
  · decide
  · decide

/-- C9 (amended): both `determineContentType` variants are total — every
URL gets a label from the closed label set; the sitemap scraper's variant
returns the default `'other'` when no path fragment matches, while the
legacy variant's default is `'article'`. -/
theorem determineContentType_total_default (url : List Char) (md : MetaInfo) :
    determineContentType url ∈ ctLabels ∧
    ((∀ f ∈ ctFragments, hasSub url f = false) →
      determineContentType url = cl "other") ∧
    determineContentTypeLegacy url md ∈ ctLegacyLabels ∧
    ((hasSub (lower url) (cl "/blog/") || md.mtype = some (cl "blog")) = false →
     (hasSub (lower url) (cl "/case-stud") || hasSub (lower (md.title.getD [])) (cl "case study")) = false →
     (hasSub (lower url) (cl "/whitepaper") || hasSub (lower (md.title.getD [])) (cl "whitepaper")) = false →
     (hasSub (lower url) (cl "/guide") || hasSub (lower (md.title.getD [])) (cl "guide")) = false →
     (hasSub (lower url) (cl "/video") || md.mtype = some (cl "video")) = false →
     (hasSub (lower url) (cl "/webinar") || hasSub (lower (md.title.getD [])) (cl "webinar")) = false →
      determineContentTypeLegacy url md = cl "article") := by
  refine ⟨?_, ?_, ?_, ?_⟩
  · unfold determineContentType
    repeat (first | exact (by decide) | apply ite_mem_of)
  · intro hnone
    have h01 := hnone (cl "/articles/") (by decide)
    have h02 := hnone (cl "/case-studies/") (by decide)
    have h03 := hnone (cl "/press-releases/") (by decide)
    have h04 := hnone (cl "/glossary/") (by decide)
    have h05 := hnone (cl "/support/") (by decide)
    have h06 := hnone (cl "/webinars/") (by decide)
    have h07 := hnone (cl "-webinar/") (by decide)
    have h08 := hnone (cl "/whitepapers/") (by decide)
    have h09 := hnone (cl "/testimonials/") (by decide)
    have h10 := hnone (cl "/for-organizations/") (by decide)
    have h11 := hnone (cl "/acquisition/") (by decide)
    have h12 := hnone (cl "/for-individuals/") (by decide)
    unfold determineContentType
    simp only [h01, h02, h03, h04, h05, h06, h07, h08, h09, h10, h11, h12]
    rfl
  · unfold determineContentTypeLegacy
    repeat (first | exact (by decide) | apply ite_mem_of)
  · intro c1 c2 c3 c4 c5 c6
    unfold determineContentTypeLegacy
    simp only [c1, c2, c3, c4, c5, c6]
    rfl

/-- C9 witness: a URL matching no rule is classified `'other'` by the
sitemap scraper's variant (applied at a concrete URL). -/
theorem determineContentType_total_default_witness :
    determineContentType (cl "https://www.hingehealth.com/about-us") = cl "other" :=
  (determineContentType_total_default
      (cl "https://www.hingehealth.com/about-us") ⟨none, none⟩).2.1
    (by decide)

/-! ## Audience classification (`hinge-monitor.js` lines 952–1002,
identical to `unnamed/part_000` lines 12–62)

The five audience regexes use only: literal runs, `.` wildcards, bounded
fillers (`.?`, `.{0,10}`), unbounded fillers (`.*`), alternation
(expanded distributively below, e.g. `symptoms? of` into two
alternatives and `your (care|...)` into twelve), and `\b` assertions at
the start of a pattern (`/\b(...)/`) or after a literal ending in a word
character (`hr\b`, `roi\b`).  The matcher below implements exactly that
fragment.  JS `.` excludes line terminators; the model assumes the text
contains none (titles, descriptions and URLs are single-line). -/

/-- One piece of an expanded regex alternative: a literal run, or a
filler of `lo`–`hi` arbitrary characters (`hi = none` models `.*`). -/
inductive Piece where
  | lit (l : List Char)
  | gap (lo : Nat) (hi : Option Nat)
deriving DecidableEq

/-- An expanded regex alternative: its pieces plus whether a `\b`
assertion trails it. -/
structure RAlt where
  pieces : List Piece
  endB : Bool
deriving DecidableEq

/-- JS regex word character (`\w` = `[A-Za-z0-9_]`). -/
def isWordChar (c : Char) : Bool :=
  ('a' ≤ c && c ≤ 'z') || ('A' ≤ c && c ≤ 'Z') || ('0' ≤ c && c ≤ '9') || c = '_'

/-- Word-character test at an optional position (string edges count as
non-word). -/
def wordAt : Option Char → Bool
  | none => false
  | some c => isWordChar c

/-- Match the pieces against the front of `cs`; when `endB`, require a
word boundary right after the match (every trailing-`\b` alternative in
the tables ends in a word character, for which testing the following
character is exact). -/
def matchPieces : List Piece → Bool → List Char → Bool
  | [], endB, cs => !endB || !wordAt cs.head?
  | .lit l :: ps, endB, cs => litPref l cs && matchPieces ps endB (cs.drop l.length)
  | .gap lo hi :: ps, endB, cs =>
    let maxK := match hi with
      | some h => min h cs.length
      | none => cs.length
    (List.range (maxK + 1)).any fun k => decide (lo ≤ k) && matchPieces ps endB (cs.drop k)

/-- Does a match of one of `alts` start at some position of `cs`?
`prev` is the character before `cs` (for the leading `\b` when `needB`);
JS `\b` holds at a position iff exactly one neighbour is a word
character. -/
def patMatchFrom (needB : Bool) (alts : List RAlt) : Option Char → List Char → Bool
  | prev, cs =>
    ((!needB || (wordAt prev != wordAt cs.head?)) &&
      alts.any fun a => matchPieces a.pieces a.endB cs) ||
    (match cs with
     | [] => false
     | c :: rest => patMatchFrom needB alts (some c) rest)

/-- JS `text.match(re) !== null` for the regex fragment above. -/
def patMatch (needB : Bool) (alts : List RAlt) (cs : List Char) : Bool :=
  patMatchFrom needB alts none cs

/-- Plain literal alternative. -/
def la (s : String) : RAlt := ⟨[.lit (cl s)], false⟩

/-- Literal alternative with a trailing `\b`. -/
def lb (s : String) : RAlt := ⟨[.lit (cl s)], true⟩

/-- `healthPlanPatterns` (leading `\b`); `value.based care` keeps its
`.` wildcard. -/
def healthPlanAlts : List RAlt :=
  [la "health plan", la "payer", la "insurance", la "cigna", la "aetna",
   la "anthem", la "humana", la "united healthcare", la "bcbs",
   la "blue cross",
   ⟨[.lit (cl "value"), .gap 1 (some 1), .lit (cl "based care")], false⟩,
   la "population health", la "medical spend", la "health system",
   la "healthcare system", la "integrated care", la "care coordination"]

/-- `employerPatterns` (leading `\b`); `hr\b` and `roi\b` keep their
trailing boundary, `benefits? leader` and the `employee (...)` group are
expanded, `employee.focused`, `lower cost.*productivity` and
`engagement.*cost` keep their wildcards. -/
def employerAlts : List RAlt :=
  [la "employer", la "workplace", lb "hr",
   la "benefit leader", la "benefits leader",
   la "cost saving", la "reduces cost", lb "roi",
   la "return on investment", la "total cost", la "claims",
   la "absenteeism",
   la "employee engagement",
   ⟨[.lit (cl "employee well"), .gap 0 (some 1), .lit (cl "being")], false⟩,
   la "employee wellness", la "employee health program",
   la "workforce", la "total rewards", la "beloved benefit",
   ⟨[.lit (cl "employee"), .gap 1 (some 1), .lit (cl "focused")], false⟩,
   ⟨[.lit (cl "lower cost"), .gap 0 none, .lit (cl "productivity")], false⟩,
   ⟨[.lit (cl "engagement"), .gap 0 none, .lit (cl "cost")], false⟩]

/-- `providerPatterns` (no leading `\b`; all alternatives literal). -/
def providerAlts : List RAlt :=
  [la "for providers", la "for clinicians", la "provider network",
   la "provider portal", la "clinical guidelines", la "join our team",
   la "provider resources", la "provider integration", la "hingeselect",
   la "provider benefit", la "providers benefit",
   la "for physical therapist", la "clinician dashboard"]

/-- `memberPatterns` (no leading `\b`); groups `your (...)`,
`symptoms? of` and `managing (...)` are expanded, `download.{0,10}app`,
`warm.up` and `full.body` keep their wildcards. -/
def memberAlts : List RAlt :=
  [la "how to",
   la "your care", la "your treatment", la "your exercises",
   la "your sleep", la "your pain", la "your body", la "your health",
   la "your knee", la "your back", la "your shoulder", la "your hip",
   la "your neck",
   la "message your", la "use the app", la "exercises for",
   la "symptom of", la "symptoms of",
   la "symptom", la "treatment for", la "living with",
   la "managing your", la "managing headache", la "managing pain",
   la "self-care", la "pain relief", la "member", la "patient",
   la "individual", la "patient guide", la "for you",
   ⟨[.lit (cl "download"), .gap 0 (some 10), .lit (cl "app")], false⟩,
   la "definition and what it is", la "enso", la "kegel", la "pelvic",
   la "pain relief device", la "improving your", la "managing your",
   la "sleep position", la "pain cycle", la "bladder habit",
   la "breathing exercise", la "mindfulness", la "yoga", la "stretching",
   ⟨[.lit (cl "warm"), .gap 1 (some 1), .lit (cl "up")], false⟩,
   la "nutrition", la "veggie", la "walking program", la "lifting",
   la "pregnancy", la "caregiver", la "tired of pain", la "breaking the",
   la "food for", la "tips for", la "ways to", la "strategies for your",
   la "rethink your pain", la "chronic pain", la "belly band",
   la "incontinence", la "water intake", la "stairs and",
   la "tennis player", la "fall leaves", la "beginner",
   ⟨[.lit (cl "full"), .gap 1 (some 1), .lit (cl "body")], false⟩,
   la "resistance", la "portion", la "daily walking", la "diagnosis",
   la "diagnose", la "condition", la "injury", la "ache", la "aching",
   la "sore", la "arthritis", la "sciatica", la "tendonitis",
   la "fracture", la "sprain", la "strain", la "inflammation",
   la "therapy for", la "relief for", la "cope with", la "deal with"]

/-- `partnerPatterns` (leading `\b`; all alternatives literal). -/
def partnerAlts : List RAlt :=
  [la "announces partnership", la "partner program",
   la "technology partner", la "strategic alliance",
   la "collaboration with", la "partnering with"]

/-- The content record built by `scrapePage` (field names from the
source; `metaDescription` is the source's name for the description). -/
structure ContentRecord where
  rid : List Char
  title : List Char
  url : List Char
  publishDate : Option (List Char)
  updateDate : Option (List Char)
  contentType : List Char
  categories : List (List Char)
  metaDescription : List Char
  targetAudience : List (List Char)
  featuredImage : List Char
  firstSeen : List Char
  lastChecked : List Char
  isNew : Bool
deriving DecidableEq, Inhabited

/-- `(content.title + ' ' + content.metaDescription + ' ' +
content.categories.join(' ')).toLowerCase()`. -/
def audienceText (c : ContentRecord) : List Char :=
  lower (c.title ++ cl " " ++ c.metaDescription ++ cl " " ++
    List.intercalate (cl " ") c.categories)

/-- Health-plan test: `text.match(healthPlanPatterns) ||
url.includes('/health-plans') || url.includes('/payers')`. -/
def healthPlanCond (c : ContentRecord) : Bool :=
  patMatch true healthPlanAlts (audienceText c) ||
    hasSub (lower c.url) (cl "/health-plans") ||
    hasSub (lower c.url) (cl "/payers")

/-- Employer test: `text.match(employerPatterns) ||
url.includes('/employers')`. -/
def employerCond (c : ContentRecord) : Bool :=
  patMatch true employerAlts (audienceText c) ||
    hasSub (lower c.url) (cl "/employers")

/-- `['case-study', 'whitepaper', 'report-guide'].includes(content.contentType)`. -/
def isB2BContent (c : ContentRecord) : Bool :=
  c.contentType = cl "case-study" || c.contentType = cl "whitepaper" ||
    c.contentType = cl "report-guide"

/-- Provider test: `text.match(providerPatterns) ||
url.includes('/for-providers')`. -/
def providerCond (c : ContentRecord) : Bool :=
  patMatch false providerAlts (audienceText c) ||
    hasSub (lower c.url) (cl "/for-providers")

/-- Member test: pattern match, member URLs, or the always-member
content types (`support`, `glossary`, `for-individuals`). -/
def memberCond (c : ContentRecord) : Bool :=
  patMatch false memberAlts (audienceText c) ||
    hasSub (lower c.url) (cl "/members") ||
    hasSub (lower c.url) (cl "/for-individuals") ||
    c.contentType = cl "support" || c.contentType = cl "glossary" ||
    c.contentType = cl "for-individuals"

/-- Partner test: `text.match(partnerPatterns) ||
url.includes('/partners')`. -/
def partnerCond (c : ContentRecord) : Bool :=
  patMatch true partnerAlts (audienceText c) ||
    hasSub (lower c.url) (cl "/partners")

/-- The `audiences` array at the end of `determineAudience`, before the
empty-set fallback.  The employer step appends `'employers'` either on an
explicit match or — else-branch — as the B2B default when the record is
B2B content and `'health plans'` was not pushed. -/
def audienceAccum (c : ContentRecord) : List (List Char) :=
  let a1 : List (List Char) :=
    if healthPlanCond c then [cl "health plans"] else []
  let a2 :=
    if employerCond c then a1 ++ [cl "employers"]
    else if isB2BContent c && !(a1.contains (cl "health plans")) then
      a1 ++ [cl "employers"]
    else a1
  let a3 := if providerCond c then a2 ++ [cl "providers"] else a2
  let a4 := if memberCond c then a3 ++ [cl "members"] else a3
  let a5 := if partnerCond c then a4 ++ [cl "partners"] else a4
  a5

/-- `determineAudience(content)`: the accumulated audiences, or
`['general']` when none matched. -/
def determineAudience (c : ContentRecord) : List (List Char) :=
  if (audienceAccum c).isEmpty then [cl "general"] else audienceAccum c

/-- C4: `determineAudience` always returns a non-empty audience list, and
when no audience pattern, URL rule, content-type rule or B2B fallback
applies it returns exactly `['general']`. -/
theorem determineAudience_nonempty (c : ContentRecord) :
    determineAudience c ≠ [] ∧
    (healthPlanCond c = false → employerCond c = false →
     isB2BContent c = false → providerCond c = false →
     memberCond c = false → partnerCond c = false →
     determineAudience c = [cl "general"]) := by
  constructor
  · unfold determineAudience
    split
    · decide
    · rename_i h
      intro hnil
      rw [hnil] at h
      simp at h
  · intro h1 h2 h3 h4 h5 h6
    unfold determineAudience audienceAccum
    simp only [h1, h2, h3, h4, h5, h6]
    rfl

/-- A record matching nothing at all (applied below). -/
def c4rec : ContentRecord :=
  { rid := cl "", title := cl "", url := cl "z",
    publishDate := none, updateDate := none, contentType := cl "other",
    categories := [], metaDescription := cl "", targetAudience := [],
    featuredImage := cl "", firstSeen := cl "T0", lastChecked := cl "T0",
    isNew := true }

/-- C4 witness: a record matching no rule is classified `['general']`. -/
theorem determineAudience_nonempty_witness :
    determineAudience c4rec = [cl "general"] :=
  (determineAudience_nonempty c4rec).2 (by decide) (by decide) (by decide)
    (by decide) (by decide) (by decide)

/-- A case study whose text matches the member pattern but neither the
employer nor the health-plan pattern. -/
def c7rec : ContentRecord :=
  { rid := cl "x", title := cl "Symptoms of arthritis",
    url := cl "https://www.hingehealth.com/resources/case-studies/knee",
    publishDate := none, updateDate := none,
    contentType := cl "case-study", categories := [],
    metaDescription := cl "", targetAudience := [], featuredImage := cl "",
    firstSeen := cl "T0", lastChecked := cl "T0", isNew := true }

/-- C7 counterexample: this record matches the explicit member pattern
(`'symptom'`), yet still receives the B2B fallback label `'employers'`
(the fallback only checks the employer pattern and the health-plan
label, not the other explicit patterns). -/
theorem audience_b2b_fallback_counterexample :
    memberCond c7rec = true ∧ employerCond c7rec = false ∧
    healthPlanCond c7rec = false ∧
    determineAudience c7rec = [cl "employers", cl "members"] :=
  ⟨by decide, by decide, by decide, by decide⟩

/-- C7 (amended): `'employers'` is in the audience set iff the explicit
employer pattern/URL matches, or — B2B fallback — the record's content
type is in the B2B set and the health-plan rule did not fire; the
provider, member and partner patterns play no role in suppressing the
fallback. -/
theorem audience_employers_iff (c : ContentRecord) :
    cl "employers" ∈ determineAudience c ↔
      (employerCond c = true ∨
        (isB2BContent c = true ∧ healthPlanCond c = false)) := by
  have d1 : (cl "employers") ≠ (cl "health plans") := by decide
  have d2 : (cl "employers") ≠ (cl "providers") := by decide
  have d3 : (cl "employers") ≠ (cl "members") := by decide
  have d4 : (cl "employers") ≠ (cl "partners") := by decide
  have d5 : (cl "employers") ≠ (cl "general") := by decide
  have hc1 : ([cl "health plans"] : List (List Char)).contains (cl "health plans") = true := by
    decide
  have hc2 : ([] : List (List Char)).contains (cl "health plans") = false := by
    decide
  unfold determineAudience audienceAccum
  by_cases h1 : healthPlanCond c <;>
    by_cases h2 : employerCond c <;>
      by_cases h3 : isB2BContent c <;>
        by_cases h4 : providerCond c <;>
          by_cases h5 : memberCond c <;>
            by_cases h6 : partnerCond c <;>
              simp [h1, h2, h3, h4, h5, h6, hc1, hc2, d1, d2, d3, d4, d5]

/-! ## The scrape run (`hinge-monitor.js` lines 796–1304)

`loadExistingContent` (848–862), `scrapePage` (1080–1171) and `main`
(1176–1294) of the sitemap-based scraper.  External effects are oracle
parameters: `genId` models `crypto.md5(url).substring(0,16)`, `parse`
models `new Date`/`format` inside `extractDate`, `now` models
`new Date().toISOString()` (one run timestamp), and `pages url` models
the HTTP fetch plus cheerio extraction for `url` (`none` = the fetch or
parse threw, the catch branch). -/

/-- The fields cheerio extraction produces in `scrapePage` (`data.*`,
with the source's `|| ''` / `|| []` defaults applied). -/
structure PageData where
  title : List Char
  metaDescription : List Char
  publishDate : Option (List Char)
  categories : List (List Char)
  featuredImage : List Char
deriving DecidableEq, Inhabited

/-- `isReportOrGuide(title, url)` (lines 938–947). -/
def isReportOrGuide (title url : List Char) : Bool :=
  [cl "report", cl "state of", cl "whitepaper", cl "ebook", cl "guide",
   cl "study"].any fun k => hasSub (lower title) k || hasSub (lower url) k

/-- `extractDate(dateString)` (lines 1007–1020): JS-falsy input (null or
empty string) yields null; otherwise the `date-fns`/`Date` parsing —
modelled by the oracle `parse` — decides. -/
def extractDate (parse : List Char → Option (List Char)) :
    Option (List Char) → Option (List Char)
  | none => none
  | some s => if s.isEmpty then none else parse s

/-- JS truthiness of an optional string (null and `''` are falsy). -/
def jsTruthy : Option (List Char) → Bool
  | none => false
  | some s => !s.isEmpty

/-- `existingContent.get(k)` on the insertion-ordered map. -/
def mapGet (m : List (List Char × ContentRecord)) (k : List Char) :
    Option ContentRecord :=
  match m.find? (fun kv => kv.1 = k) with
  | some kv => some kv.2
  | none => none

/-- `Map.prototype.set`: replace in place when the key exists, else
append. -/
def mapSet (m : List (List Char × ContentRecord)) (k : List Char)
    (v : ContentRecord) : List (List Char × ContentRecord) :=
  if (mapGet m k).isSome then
    m.map fun kv => if kv.1 = k then (k, v) else kv
  else m ++ [(k, v)]

/-- `loadExistingContent` (lines 848–862): `existingContent.set(item.url,
item)` over the persisted `content` array. -/
def buildMap (old : List ContentRecord) : List (List Char × ContentRecord) :=
  old.foldl (fun m it => mapSet m it.url it) []

/-- The record `scrapePage` builds on a successful fetch (lines
1122–1158): content-type refinement for `for-organizations`, identity
and `firstSeen` carried over from `existingContent`, `publishDate` from
the sitemap lastmod when truthy else from the page, `isNew` iff the URL
was not in `existingContent`, then `targetAudience` computed from the
assembled record. -/
def scrapedRecord (genId : List Char → List Char)
    (parse : List Char → Option (List Char)) (now : List Char)
    (emap : List (List Char × ContentRecord)) (d : PageData)
    (url : List Char) (sitemapLastmod : Option (List Char)) :
    ContentRecord :=
  let contentType0 := determineContentType url
  let contentType :=
    if contentType0 = cl "for-organizations" then
      if isReportOrGuide d.title url then cl "report-guide" else cl "other"
    else contentType0
  let existing := mapGet emap url
  let publishDate :=
    if jsTruthy sitemapLastmod then extractDate parse sitemapLastmod
    else extractDate parse d.publishDate
  let base : ContentRecord :=
    { rid := match existing with | some e => e.rid | none => genId url
      title := d.title
      url := url
      publishDate := publishDate
      updateDate := none
      contentType := contentType
      categories := d.categories
      metaDescription := d.metaDescription
      targetAudience := []
      featuredImage := d.featuredImage
      firstSeen := match existing with | some e => e.firstSeen | none => now
      lastChecked := now
      isNew := match existing with | some _ => false | none => true }
  { base with targetAudience := determineAudience base }

/-- `scrapePage(url, sitemapLastmod)`: `none` when the fetch/parse threw
(the catch branch), else the assembled record. -/
def scrapePage (genId : List Char → List Char)
    (parse : List Char → Option (List Char)) (now : List Char)
    (emap : List (List Char × ContentRecord)) (page : Option PageData)
    (url : List Char) (sitemapLastmod : Option (List Char)) :
    Option ContentRecord :=
  page.map fun d => scrapedRecord genId parse now emap d url sitemapLastmod

/-- The `stats` object (lines 821–827). -/
structure RunStats where
  total : Nat
  successful : Nat
  failed : Nat
  failedUrls : List (List Char)
  skipped : Nat
deriving DecidableEq, Inhabited

/-- Initial stats. -/
def stats0 : RunStats := ⟨0, 0, 0, [], 0⟩

/-- Outcome of a completed run: the saved corpus (`allContent`), final
stats, and the process exit code. -/
structure RunResult where
  corpus : List ContentRecord
  stats : RunStats
  exitCode : Nat
deriving DecidableEq, Inhabited

/-- Target selection in `main` (lines 1197–1211): skip already-scraped
URLs unless forced and the existing map is non-empty, then apply the
JS-truthy `maxPagesToScrape` cap. -/
def selectTargets (force : Bool) (maxPages : Option Nat)
    (emap : List (List Char × ContentRecord))
    (urls : List (List Char × Option (List Char))) :
    List (List Char × Option (List Char)) :=
  let filtered :=
    if !force && !emap.isEmpty then
      urls.filter fun it => (mapGet emap it.1).isNone
    else urls
  match maxPages with
  | some m => if m ≠ 0 ∧ m < filtered.length then filtered.take m else filtered
  | none => filtered

/-- One iteration of the fetch loop (lines 1217–1237): `stats.total++`,
then either push the scraped record and count success, or count the
failure and record the URL. -/
def scrapeStep (genId : List Char → List Char)
    (parse : List Char → Option (List Char)) (now : List Char)
    (emap : List (List Char × ContentRecord))
    (pages : List Char → Option PageData)
    (acc : List ContentRecord × RunStats)
    (it : List Char × Option (List Char)) :
    List ContentRecord × RunStats :=
  let st := { acc.2 with total := acc.2.total + 1 }
  match scrapePage genId parse now emap (pages it.1) it.1 it.2 with
  | some r => (acc.1 ++ [r], { st with successful := st.successful + 1 })
  | none =>
    (acc.1, { st with failed := st.failed + 1,
                      failedUrls := st.failedUrls ++ [it.1] })

/-- The whole fetch loop over the selected targets. -/
def scrapeLoop (genId : List Char → List Char)
    (parse : List Char → Option (List Char)) (now : List Char)
    (emap : List (List Char × ContentRecord))
    (pages : List Char → Option PageData)
    (targets : List (List Char × Option (List Char))) :
    List ContentRecord × RunStats :=
  targets.foldl (scrapeStep genId parse now emap pages) ([], stats0)

/-- One iteration of the keep-merge loop (lines 1242–1249): an existing
entry whose URL was not scraped this run is pushed with only
`lastChecked` updated, counting it as skipped. -/
def keepStep (now : List Char) (scraped : List (List Char))
    (acc : List ContentRecord × RunStats)
    (kv : List Char × ContentRecord) : List ContentRecord × RunStats :=
  if kv.1 ∈ scraped then acc
  else (acc.1 ++ [{ kv.2 with lastChecked := now }],
        { acc.2 with skipped := acc.2.skipped + 1 })

/-- The merge with existing content (lines 1239–1250): the scraped-URL
set is snapshotted once, then every existing entry not in it is kept. -/
def mergeKept (now : List Char) (emap : List (List Char × ContentRecord))
    (acc : List ContentRecord × RunStats) :
    List ContentRecord × RunStats :=
  let scraped := acc.1.map (·.url)
  emap.foldl (keepStep now scraped) acc

/-- `main()` (lines 1176–1294) for a run that reaches the end of its
fetch loop: load the existing corpus, bail out (exit 1, modelled `none`)
on an empty discovery set, select targets, run the fetch loop, merge the
kept records unless force-refreshing, and exit non-zero iff any fetch
failed (line 1293). -/
def runMain (genId : List Char → List Char)
    (parse : List Char → Option (List Char)) (now : List Char)
    (force : Bool) (maxPages : Option Nat)
    (pages : List Char → Option PageData) (old : List ContentRecord)
    (urls : List (List Char × Option (List Char))) : Option RunResult :=
  let emap := buildMap old
  if urls.isEmpty then none
  else
    let targets := selectTargets force maxPages emap urls
    let ls := scrapeLoop genId parse now emap pages targets
    let ms := if !force && !emap.isEmpty then mergeKept now emap ls else ls
    some { corpus := ms.1, stats := ms.2,
           exitCode := if ms.2.failed > 0 then 1 else 0 }

/-! ### Map and fold lemmas -/

/-- Invariant of the URL-keyed map: keys are distinct and each value's
`url` equals its key. -/
def goodMap (m : List (List Char × ContentRecord)) : Prop :=
  (m.map Prod.fst).Nodup ∧ ∀ kv ∈ m, kv.2.url = kv.1

theorem mapGet_cons_eq {hd : List Char × ContentRecord}
    {tl : List (List Char × ContentRecord)} {k : List Char}
    (h : hd.1 = k) : mapGet (hd :: tl) k = some hd.2 := by
  simp [mapGet, List.find?_cons, h]

theorem mapGet_cons_ne {hd : List Char × ContentRecord}
    {tl : List (List Char × ContentRecord)} {k : List Char}
    (h : hd.1 ≠ k) : mapGet (hd :: tl) k = mapGet tl k := by
  have hd0 : (decide (hd.1 = k)) = false := by simp [h]
  simp only [mapGet, List.find?_cons, hd0]

theorem mapGet_isSome_iff (m : List (List Char × ContentRecord))
    (k : List Char) : (mapGet m k).isSome = true ↔ k ∈ m.map Prod.fst := by
  induction m with
  | nil => simp [mapGet]
  | cons hd tl ih =>
    by_cases h : hd.1 = k
    · simp [mapGet_cons_eq h, h]
    · rw [mapGet_cons_ne h, ih]
      simp only [List.map_cons, List.mem_cons]
      exact ⟨Or.inr, fun hc => hc.elim (fun he => absurd he.symm h) id⟩

theorem mapGet_of_mem {m : List (List Char × ContentRecord)}
    (hm : (m.map Prod.fst).Nodup) {k : List Char} {v : ContentRecord}
    (hkv : (k, v) ∈ m) : mapGet m k = some v := by
  induction m with
  | nil => cases hkv
  | cons hd tl ih =>
    rcases List.mem_cons.mp hkv with h | h
    · rw [← h]
      exact mapGet_cons_eq rfl
    · have hk : k ∈ tl.map Prod.fst :=
        List.mem_map.mpr ⟨(k, v), h, rfl⟩
      have hne : hd.1 ≠ k := by
        intro he
        exact (List.nodup_cons.mp hm).1 (he ▸ hk)
      rw [mapGet_cons_ne hne]
      exact ih (List.nodup_cons.mp hm).2 h

theorem mem_of_mapGet_eq_some {m : List (List Char × ContentRecord)}
    {k : List Char} {v : ContentRecord} (h : mapGet m k = some v) :
    (k, v) ∈ m := by
  unfold mapGet at h
  cases hf : m.find? (fun kv => kv.1 = k) with
  | none => rw [hf] at h; cases h
  | some kv =>
    rw [hf] at h
    have hmem := List.mem_of_find?_eq_some hf
    have hkey : kv.1 = k := by simpa using List.find?_some hf
    injection h with h2
    have : kv = (k, v) := by
      cases kv
      simp_all
    exact this ▸ hmem

theorem goodMap_mapSet {m : List (List Char × ContentRecord)}
    (hm : goodMap m) {k : List Char} {v : ContentRecord} (hv : v.url = k) :
    goodMap (mapSet m k v) := by
  unfold mapSet
  by_cases h : (mapGet m k).isSome = true
  · rw [if_pos h]
    constructor
    · have hkeys : (m.map fun kv => if kv.1 = k then (k, v) else kv).map Prod.fst =
          m.map Prod.fst := by
        rw [List.map_map]
        apply List.map_congr_left
        intro kv _
        by_cases hk : kv.1 = k <;> simp [hk]
      rw [List.map_map]
      rw [List.map_map] at hkeys
      rw [hkeys]
      exact hm.1
    · intro kv hkv
      rcases List.mem_map.mp hkv with ⟨kv0, hkv0, hkveq⟩
      by_cases hk : kv0.1 = k
      · rw [← hkveq, if_pos hk]; exact hv
      · rw [← hkveq, if_neg hk]; exact hm.2 kv0 hkv0
  · rw [if_neg h]
    constructor
    · have hk : k ∉ m.map Prod.fst := fun hc => h ((mapGet_isSome_iff m k).mpr hc)
      simp only [List.map_append, List.map_cons, List.map_nil]
      exact List.Nodup.append hm.1 (List.nodup_singleton k)
        (by simpa [List.disjoint_right] using hk)
    · intro kv hkv
      rcases List.mem_append.mp hkv with hmem | hmem
      · exact hm.2 kv hmem
      · simp only [List.mem_singleton] at hmem
        rw [hmem]; exact hv

theorem goodMap_buildMap (old : List ContentRecord) : goodMap (buildMap old) := by
  unfold buildMap
  suffices h : ∀ m, goodMap m → goodMap (old.foldl (fun m it => mapSet m it.url it) m) by
    exact h [] ⟨List.nodup_nil, by simp⟩
  induction old with
  | nil => intro m hm; simpa using hm
  | cons hd tl ih =>
    intro m hm
    exact ih (mapSet m hd.url hd) (goodMap_mapSet hm rfl)

theorem scrapedRecord_url (genId : List Char → List Char)
    (parse : List Char → Option (List Char)) (now : List Char)
    (emap : List (List Char × ContentRecord)) (d : PageData)
    (url : List Char) (lm : Option (List Char)) :
    (scrapedRecord genId parse now emap d url lm).url = url := rfl

theorem scrapedRecord_firstSeen (genId : List Char → List Char)
    (parse : List Char → Option (List Char)) (now : List Char)
    (emap : List (List Char × ContentRecord)) (d : PageData)
    (url : List Char) (lm : Option (List Char)) :
    (scrapedRecord genId parse now emap d url lm).firstSeen =
      (match mapGet emap url with
       | some e => e.firstSeen
       | none => now) := rfl

theorem scrapedRecord_isNew (genId : List Char → List Char)
    (parse : List Char → Option (List Char)) (now : List Char)
    (emap : List (List Char × ContentRecord)) (d : PageData)
    (url : List Char) (lm : Option (List Char)) :
    (scrapedRecord genId parse now emap d url lm).isNew =
      (mapGet emap url).isNone := by
  cases h : mapGet emap url <;>
    simp [scrapedRecord, h]

theorem scrapedRecord_publishDate (genId : List Char → List Char)
    (parse : List Char → Option (List Char)) (now : List Char)
    (emap : List (List Char × ContentRecord)) (d : PageData)
    (url : List Char) (lm : Option (List Char)) :
    (scrapedRecord genId parse now emap d url lm).publishDate =
      (if jsTruthy lm then extractDate parse lm
       else extractDate parse d.publishDate) := rfl

theorem scrapeLoop_go_corpus (genId : List Char → List Char)
    (parse : List Char → Option (List Char)) (now : List Char)
    (emap : List (List Char × ContentRecord))
    (pages : List Char → Option PageData)
    (ts : List (List Char × Option (List Char)))
    (acc : List ContentRecord × RunStats) :
    (ts.foldl (scrapeStep genId parse now emap pages) acc).1 =
      acc.1 ++ ts.filterMap
        (fun it => scrapePage genId parse now emap (pages it.1) it.1 it.2) := by
  induction ts generalizing acc with
  | nil => simp
  | cons hd tl ih =>
    rw [List.foldl_cons, List.filterMap_cons]
    cases h : scrapePage genId parse now emap (pages hd.1) hd.1 hd.2 with
    | some r => rw [ih]; simp [scrapeStep, h]
    | none => rw [ih]; simp [scrapeStep, h]

theorem scrapeLoop_go_stats (genId : List Char → List Char)
    (parse : List Char → Option (List Char)) (now : List Char)
    (emap : List (List Char × ContentRecord))
    (pages : List Char → Option PageData)
    (ts : List (List Char × Option (List Char)))
    (acc : List ContentRecord × RunStats) :
    (ts.foldl (scrapeStep genId parse now emap pages) acc).2.total =
        acc.2.total + ts.length ∧
    (ts.foldl (scrapeStep genId parse now emap pages) acc).2.failed =
        acc.2.failed + (ts.filter fun it => (pages it.1).isNone).length ∧
    (ts.foldl (scrapeStep genId parse now emap pages) acc).2.successful =
        acc.2.successful + (ts.filter fun it => (pages it.1).isSome).length := by
  induction ts generalizing acc with
  | nil => simp
  | cons hd tl ih =>
    rw [List.foldl_cons]
    rcases ih (scrapeStep genId parse now emap pages acc hd) with ⟨h1, h2, h3⟩
    rw [List.filter_cons, List.filter_cons]
    cases h : pages hd.1 with
    | some d =>
      refine ⟨?_, ?_, ?_⟩
      · rw [h1]; simp [scrapeStep, scrapePage, h] <;> omega
      · rw [h2]; simp [scrapeStep, scrapePage, h] <;> omega
      · rw [h3]; simp [scrapeStep, scrapePage, h] <;> omega
    | none =>
      refine ⟨?_, ?_, ?_⟩
      · rw [h1]; simp [scrapeStep, scrapePage, h] <;> omega
      · rw [h2]; simp [scrapeStep, scrapePage, h] <;> omega
      · rw [h3]; simp [scrapeStep, scrapePage, h] <;> omega

theorem keepLoop_go_corpus (now : List Char) (scraped : List (List Char))
    (l : List (List Char × ContentRecord))
    (acc : List ContentRecord × RunStats) :
    (l.foldl (keepStep now scraped) acc).1 =
      acc.1 ++ (l.filter fun kv => !decide (kv.1 ∈ scraped)).map
        (fun kv => { kv.2 with lastChecked := now }) := by
  induction l generalizing acc with
  | nil => simp
  | cons hd tl ih =>
    rw [List.foldl_cons]
    by_cases h : hd.1 ∈ scraped
    · rw [ih]; simp [keepStep, h]
    · rw [ih]; simp [keepStep, h]

theorem keepLoop_go_stats (now : List Char) (scraped : List (List Char))
    (l : List (List Char × ContentRecord))
    (acc : List ContentRecord × RunStats) :
    (l.foldl (keepStep now scraped) acc).2.total = acc.2.total ∧
    (l.foldl (keepStep now scraped) acc).2.failed = acc.2.failed ∧
    (l.foldl (keepStep now scraped) acc).2.successful = acc.2.successful := by
  induction l generalizing acc with
  | nil => simp
  | cons hd tl ih =>
    rw [List.foldl_cons]
    rcases ih (keepStep now scraped acc hd) with ⟨h1, h2, h3⟩
    by_cases h : hd.1 ∈ scraped <;>
      exact ⟨by rw [h1]; simp [keepStep, h], by rw [h2]; simp [keepStep, h],
             by rw [h3]; simp [keepStep, h]⟩

/-- Number of records with a given URL in a corpus. -/
def countUrl (cs : List ContentRecord) (u : List Char) : Nat :=
  (cs.filter fun r => r.url = u).length

theorem countUrl_append (a b : List ContentRecord) (u : List Char) :
    countUrl (a ++ b) u = countUrl a u + countUrl b u := by
  simp [countUrl, List.filter_append]

theorem countUrl_cons (r : ContentRecord) (t : List ContentRecord)
    (u : List Char) :
    countUrl (r :: t) u = (if r.url = u then 1 else 0) + countUrl t u := by
  by_cases hu : r.url = u <;> simp [countUrl, List.filter_cons, hu] <;> omega

theorem countUrl_of_nodup :
    ∀ {cs : List ContentRecord}, (cs.map ContentRecord.url).Nodup →
      ∀ u, countUrl cs u = if u ∈ cs.map ContentRecord.url then 1 else 0 := by
  intro cs
  induction cs with
  | nil => intro _ u; simp [countUrl]
  | cons r t ih =>
    intro h u
    rw [List.map_cons, List.nodup_cons] at h
    obtain ⟨hnot, hnd⟩ := h
    rw [countUrl_cons, ih hnd u]
    by_cases hu : r.url = u
    · subst hu
      simp [List.mem_cons, hnot]
    · have hne : u ≠ r.url := fun he => hu he.symm
      simp [hu, List.mem_cons, hne]

/-- The corpus and stats a completed run saves (the value of
`allContent`/`stats` after the merge step of `main`). -/
def mergedState (genId : List Char → List Char)
    (parse : List Char → Option (List Char)) (now : List Char)
    (force : Bool) (maxPages : Option Nat)
    (pages : List Char → Option PageData) (old : List ContentRecord)
    (urls : List (List Char × Option (List Char))) :
    List ContentRecord × RunStats :=
  let emap := buildMap old
  let ls := scrapeLoop genId parse now emap pages
    (selectTargets force maxPages emap urls)
  if !force && !emap.isEmpty then mergeKept now emap ls else ls

theorem runMain_eq (genId : List Char → List Char)
    (parse : List Char → Option (List Char)) (now : List Char)
    (force : Bool) (maxPages : Option Nat)
    (pages : List Char → Option PageData) (old : List ContentRecord)
    (urls : List (List Char × Option (List Char)))
    (hne : urls.isEmpty = false) :
    runMain genId parse now force maxPages pages old urls =
      some { corpus := (mergedState genId parse now force maxPages pages old urls).1
             stats := (mergedState genId parse now force maxPages pages old urls).2
             exitCode :=
               if (mergedState genId parse now force maxPages pages old urls).2.failed > 0
               then 1 else 0 } := by
  unfold runMain mergedState
  rw [if_neg (by simp [hne] : ¬(urls.isEmpty = true))]

theorem runMain_corpus_mem {genId : List Char → List Char}
    {parse : List Char → Option (List Char)} {now : List Char}
    {force : Bool} {maxPages : Option Nat}
    {pages : List Char → Option PageData} {old : List ContentRecord}
    {urls : List (List Char × Option (List Char))} {res : RunResult}
    (h : runMain genId parse now force maxPages pages old urls = some res)
    {r : ContentRecord} (hr : r ∈ res.corpus) :
    (∃ it ∈ selectTargets force maxPages (buildMap old) urls, ∃ d,
        pages it.1 = some d ∧
        r = scrapedRecord genId parse now (buildMap old) d it.1 it.2) ∨
    ((!force && !(buildMap old).isEmpty) = true ∧
      ∃ kv ∈ buildMap old, r = { kv.2 with lastChecked := now }) := by
  cases hne : urls.isEmpty with
  | true =>
    unfold runMain at h
    rw [if_pos (by simp [hne])] at h
    exact Option.noConfusion h
  | false =>
    rw [runMain_eq genId parse now force maxPages pages old urls hne] at h
    injection h with h
    rw [← h] at hr
    simp only [mergedState] at hr
    by_cases hm : (!force && !(buildMap old).isEmpty) = true
    · rw [if_pos hm] at hr
      unfold mergeKept at hr
      rw [keepLoop_go_corpus] at hr
      rcases List.mem_append.mp hr with hs | hk
      · left
        unfold scrapeLoop at hs
        rw [scrapeLoop_go_corpus] at hs
        simp only [List.nil_append] at hs
        rcases List.mem_filterMap.mp hs with ⟨it, hit, hF⟩
        cases hp : pages it.1 with
        | none => rw [hp] at hF; exact Option.noConfusion hF
        | some d =>
          rw [hp] at hF
          simp only [scrapePage, Option.map_some] at hF
          injection hF with hF
          exact ⟨it, hit, d, hp, hF.symm⟩
      · right
        refine ⟨hm, ?_⟩
        rcases List.mem_map.mp hk with ⟨kv, hkv, hkveq⟩
        exact ⟨kv, (List.mem_filter.mp hkv).1, hkveq.symm⟩
    · rw [if_neg hm] at hr
      left
      unfold scrapeLoop at hr
      rw [scrapeLoop_go_corpus] at hr
      simp only [List.nil_append] at hr
      rcases List.mem_filterMap.mp hr with ⟨it, hit, hF⟩
      cases hp : pages it.1 with
      | none => rw [hp] at hF; exact Option.noConfusion hF
      | some d =>
        rw [hp] at hF
        simp only [scrapePage, Option.map_some] at hF
        injection hF with hF
        exact ⟨it, hit, d, hp, hF.symm⟩

theorem record_update_lastChecked_fields (v : ContentRecord) (n : List Char) :
    ({ v with lastChecked := n } : ContentRecord).url = v.url ∧
    ({ v with lastChecked := n } : ContentRecord).firstSeen = v.firstSeen ∧
    ({ v with lastChecked := n } : ContentRecord).isNew = v.isNew :=
  ⟨rfl, rfl, rfl⟩

theorem mapGet_self_of_mem_buildMap {old : List ContentRecord}
    {kv : List Char × ContentRecord} (hkv : kv ∈ buildMap old) :
    kv.2.url = kv.1 ∧ mapGet (buildMap old) kv.1 = some kv.2 := by
  have hgm := goodMap_buildMap old
  refine ⟨hgm.2 kv hkv, ?_⟩
  have : (kv.1, kv.2) ∈ buildMap old := by
    cases kv; exact hkv
  exact mapGet_of_mem hgm.1 this

/-- C1: in both normal and force-refresh mode, every record of the merged
corpus whose canonical URL was present in the previously persisted corpus
keeps exactly the `firstSeen` value the old corpus held for that URL. -/
theorem run_preserves_firstSeen {genId : List Char → List Char}
    {parse : List Char → Option (List Char)} {now : List Char}
    {force : Bool} {maxPages : Option Nat}
    {pages : List Char → Option PageData} {old : List ContentRecord}
    {urls : List (List Char × Option (List Char))} {res : RunResult}
    (h : runMain genId parse now force maxPages pages old urls = some res) :
    ∀ r ∈ res.corpus, ∀ e, mapGet (buildMap old) r.url = some e →
      r.firstSeen = e.firstSeen := by
  intro r hr e he
  rcases runMain_corpus_mem h hr with ⟨it, _, d, _, rfl⟩ | ⟨_, kv, hkv, rfl⟩
  · rw [scrapedRecord_url] at he
    rw [scrapedRecord_firstSeen, he]
  · obtain ⟨hurl, hget⟩ := mapGet_self_of_mem_buildMap hkv
    rw [(record_update_lastChecked_fields kv.2 now).1, hurl, hget] at he
    injection he with he
    rw [(record_update_lastChecked_fields kv.2 now).2.1, he]

/-- Constant id oracle for the concrete runs below. -/
def wGenId : List Char → List Char := fun _ => cl "id0"

/-- Identity date-parsing oracle. -/
def wParse : List Char → Option (List Char) := fun s => some s

/-- Run timestamp for the concrete runs below. -/
def wNow : List Char := cl "2026-01-01T00:00:00.000Z"

/-- An extracted page with every field empty. -/
def wPage : PageData :=
  { title := cl "", metaDescription := cl "", publishDate := none,
    categories := [], featuredImage := cl "" }

/-- Page oracle that succeeds on every URL. -/
def wPages : List Char → Option PageData := fun _ => some wPage

/-- An old-corpus record for URL `a` first seen at `T0`. -/
def w1old : ContentRecord :=
  { rid := cl "a1", title := cl "Old", url := cl "a",
    publishDate := none, updateDate := none, contentType := cl "other",
    categories := [], metaDescription := cl "",
    targetAudience := [cl "general"], featuredImage := cl "",
    firstSeen := cl "T0", lastChecked := cl "T0", isNew := false }

/-- Discovery set containing exactly the known URL `a`. -/
def w1urls : List (List Char × Option (List Char)) := [(cl "a", none)]

/-- Result of the force-refresh run over `w1old`/`w1urls`. -/
def w1res : RunResult :=
  (runMain wGenId wParse wNow true none wPages [w1old] w1urls).getD default

/-- C1 witness: after a force-refresh re-scrape of the known URL `a`, the
refetched record still carries `firstSeen = T0`. -/
theorem run_preserves_firstSeen_witness :
    (w1res.corpus.headD default).firstSeen = w1old.firstSeen :=
  run_preserves_firstSeen
    (show runMain wGenId wParse wNow true none wPages [w1old] w1urls =
        some w1res by decide)
    (w1res.corpus.headD default) (by decide) w1old (by decide)

/-- An old-corpus record for URL `a` persisted with `isNew = true`. -/
def w6old : ContentRecord :=
  { rid := cl "a1", title := cl "Old", url := cl "a",
    publishDate := none, updateDate := none, contentType := cl "other",
    categories := [], metaDescription := cl "",
    targetAudience := [cl "general"], featuredImage := cl "",
    firstSeen := cl "T0", lastChecked := cl "T0", isNew := true }

/-- Discovery set containing only the new URL `b`. -/
def w6urls : List (List Char × Option (List Char)) := [(cl "b", none)]

/-- Result of the normal-mode run over `w6old`/`w6urls`. -/
def w6res : RunResult :=
  (runMain wGenId wParse wNow false none wPages [w6old] w6urls).getD default

/-- C6 counterexample: URL `a` is present in the previous run's corpus
(so the claim demands `isNew = false`), yet the kept record in the merged
corpus still has `isNew = true` — the persisted flag is carried forward,
not recomputed. -/
theorem run_isNew_counterexample :
    runMain wGenId wParse wNow false none wPages [w6old] w6urls =
      some w6res ∧
    (mapGet (buildMap [w6old]) (cl "a")).isSome = true ∧
    (w6res.corpus.filter fun r => r.url = cl "a").map (fun r => r.isNew) =
      [true] :=
  ⟨by decide, by decide, by decide⟩

/-- C6 (amended): `isNew` is recomputed (URL absent from the previous
corpus) only for records fetched this run; records kept from the previous
corpus retain their persisted `isNew` flag.  Under force-refresh every
corpus record is freshly fetched, so there the recomputation is
universal. -/
theorem run_isNew_semantics {genId : List Char → List Char}
    {parse : List Char → Option (List Char)} {now : List Char}
    {force : Bool} {maxPages : Option Nat}
    {pages : List Char → Option PageData} {old : List ContentRecord}
    {urls : List (List Char × Option (List Char))} {res : RunResult}
    (h : runMain genId parse now force maxPages pages old urls = some res) :
    (∀ r ∈ res.corpus,
        r.isNew = (mapGet (buildMap old) r.url).isNone ∨
        ∃ e, mapGet (buildMap old) r.url = some e ∧ r.isNew = e.isNew) ∧
    (force = true → ∀ r ∈ res.corpus,
        r.isNew = (mapGet (buildMap old) r.url).isNone) := by
  constructor
  · intro r hr
    rcases runMain_corpus_mem h hr with ⟨it, _, d, _, rfl⟩ | ⟨_, kv, hkv, rfl⟩
    · left
      rw [scrapedRecord_isNew, scrapedRecord_url]
    · right
      obtain ⟨hurl, hget⟩ := mapGet_self_of_mem_buildMap hkv
      refine ⟨kv.2, ?_, (record_update_lastChecked_fields kv.2 now).2.2⟩
      rw [(record_update_lastChecked_fields kv.2 now).1, hurl]
      exact hget
  · intro hforce r hr
    rcases runMain_corpus_mem h hr with ⟨it, _, d, _, rfl⟩ | ⟨hm, _, _, _⟩
    · rw [scrapedRecord_isNew, scrapedRecord_url]
    · rw [hforce] at hm
      simp at hm

/-- C6 amended-theorem witness: in the force-refresh run over
`w1old`/`w1urls` the single corpus record has `isNew = false` because URL
`a` was present before. -/
theorem run_isNew_semantics_witness :
    (w1res.corpus.headD default).isNew =
      (mapGet (buildMap [w1old]) (w1res.corpus.headD default).url).isNone :=
  (run_isNew_semantics
      (show runMain wGenId wParse wNow true none wPages [w1old] w1urls =
          some w1res by decide)).2
    rfl (w1res.corpus.headD default) (by decide)

/-- Five discovered URLs. -/
def w3urls : List (List Char × Option (List Char)) :=
  [(cl "u1", none), (cl "u2", none), (cl "u3", none), (cl "u4", none),
   (cl "u5", none)]

/-- Page oracle failing on exactly `u5` (one of five fetches). -/
def w3pages : List Char → Option PageData :=
  fun u => if u = cl "u5" then none else some wPage

/-- Result of the first-run scrape over `w3urls` with one failure. -/
def w3res : RunResult :=
  (runMain wGenId wParse wNow false none w3pages [] w3urls).getD default

/-- C3: the code at `hinge-monitor.js:1293` exits non-zero as soon as one
fetch failed.  A completed run with 5 attempts and exactly 1 failure —
a 20% failure rate, which the documented threshold (`WORKFLOW-FIXES.md`)
says must exit zero — exits 1. -/
theorem run_exit_nonzero_at_twenty_percent :
    runMain wGenId wParse wNow false none w3pages [] w3urls = some w3res ∧
    w3res.stats.total = 5 ∧ w3res.stats.failed = 1 ∧
    w3res.stats.failed * 5 = w3res.stats.total ∧
    w3res.exitCode = 1 :=
  ⟨by decide, by decide, by decide, by decide, by decide⟩

/-- An old-corpus record for URL `c` first seen at `T0`. -/
def w2old : ContentRecord :=
  { rid := cl "c1", title := cl "Old", url := cl "c",
    publishDate := none, updateDate := none, contentType := cl "other",
    categories := [], metaDescription := cl "",
    targetAudience := [cl "general"], featuredImage := cl "",
    firstSeen := cl "T0", lastChecked := cl "T0", isNew := false }

/-- Discovery set that no longer contains the old URL `c`. -/
def w2urls : List (List Char × Option (List Char)) := [(cl "a", none)]

/-- Result of the force-refresh run over `w2old`/`w2urls`. -/
def w2res : RunResult :=
  (runMain wGenId wParse wNow true none wPages [w2old] w2urls).getD default

/-- C2 counterexample: under force-refresh the keep-merge of
`hinge-monitor.js:1240` is skipped, so the old record for URL `c` — in
the previous corpus but absent from the discovery set — is dropped from
the merged corpus, contradicting the claimed corpus-superset invariant
for force-refresh mode. -/
theorem run_corpus_superset_counterexample :
    runMain wGenId wParse wNow true none wPages [w2old] w2urls =
      some w2res ∧
    (mapGet (buildMap [w2old]) (cl "c")).isSome = true ∧
    countUrl w2res.corpus (cl "c") = 0 :=
  ⟨by decide, by decide, by decide⟩

theorem scrapePage_some_eq (genId : List Char → List Char)
    (parse : List Char → Option (List Char)) (now : List Char)
    (emap : List (List Char × ContentRecord)) (d : PageData)
    (url : List Char) (lm : Option (List Char)) :
    scrapePage genId parse now emap (some d) url lm =
      some (scrapedRecord genId parse now emap d url lm) := rfl

theorem filterMap_scrape_urls (genId : List Char → List Char)
    (parse : List Char → Option (List Char)) (now : List Char)
    (emap : List (List Char × ContentRecord))
    (pages : List Char → Option PageData) :
    ∀ {ts : List (List Char × Option (List Char))},
      (∀ it ∈ ts, (pages it.1).isSome = true) →
      ((ts.filterMap fun it =>
          scrapePage genId parse now emap (pages it.1) it.1 it.2).map
        ContentRecord.url) = ts.map Prod.fst := by
  intro ts
  induction ts with
  | nil => intro _; simp
  | cons hd tl ih =>
    intro hok
    have hhd := hok hd (List.mem_cons_self hd tl)
    cases hp : pages hd.1 with
    | none => rw [hp] at hhd; cases hhd
    | some d =>
      rw [List.filterMap_cons, hp, scrapePage_some_eq]
      dsimp only
      rw [List.map_cons, List.map_cons, scrapedRecord_url,
        ih fun it hit => hok it (List.mem_cons_of_mem hd hit)]

theorem mergeKept_corpus (now : List Char)
    (emap : List (List Char × ContentRecord))
    (acc : List ContentRecord × RunStats) :
    (mergeKept now emap acc).1 =
      acc.1 ++ (emap.filter fun kv => !decide (kv.1 ∈ acc.1.map (·.url))).map
        (fun kv => { kv.2 with lastChecked := now }) := by
  unfold mergeKept
  exact keepLoop_go_corpus now _ emap acc

/-- C2 (amended): in normal (non-force) mode with no max-pages cap, a
duplicate-free discovery set and no fetch failures, the merged corpus
holds exactly one record per canonical URL present in the old corpus or
the discovery set — old URLs absent from the discovery set are kept.
(Under force-refresh the keep-merge is skipped, so disappeared URLs drop
out; with duplicates, failures or a cap, counts differ likewise.) -/
theorem run_normal_corpus_unique {genId : List Char → List Char}
    {parse : List Char → Option (List Char)} {now : List Char}
    {pages : List Char → Option PageData} {old : List ContentRecord}
    {urls : List (List Char × Option (List Char))} {res : RunResult}
    (hnd : (urls.map Prod.fst).Nodup)
    (hok : ∀ it ∈ urls, (pages it.1).isSome = true)
    (h : runMain genId parse now false none pages old urls = some res) :
    ∀ u, countUrl res.corpus u =
      if (mapGet (buildMap old) u).isSome = true ∨ u ∈ urls.map Prod.fst
      then 1 else 0 := by
  intro u
  cases hne : urls.isEmpty with
  | true =>
    unfold runMain at h
    rw [if_pos (by simp [hne])] at h
    exact Option.noConfusion h
  | false =>
    rw [runMain_eq _ _ _ _ _ _ _ _ hne] at h
    injection h with h
    have hcor : res.corpus =
        (mergedState genId parse now false none pages old urls).1 := by
      rw [← h]
    have hgm := goodMap_buildMap old
    by_cases hemp : (buildMap old).isEmpty = true
    · have hm0 : buildMap old = [] := by
        cases hb : buildMap old with
        | nil => rfl
        | cons a l => rw [hb] at hemp; simp at hemp
      have hsel : selectTargets false none (buildMap old) urls = urls := by
        unfold selectTargets
        rw [hemp]
        rfl
      have hcond : ¬((!false && !(buildMap old).isEmpty) = true) := by
        rw [hemp]
        simp
      rw [hcor]
      unfold mergedState
      rw [if_neg hcond]
      unfold scrapeLoop
      rw [scrapeLoop_go_corpus, hsel]
      simp only [List.nil_append]
      have hurl := filterMap_scrape_urls genId parse now (buildMap old)
        pages hok
      rw [countUrl_of_nodup (by rw [hurl]; exact hnd) u, hurl, hm0]
      by_cases hu : u ∈ urls.map Prod.fst <;> simp [mapGet, hu]
    · have hempf : (buildMap old).isEmpty = false := by
        cases hb : (buildMap old).isEmpty
        · rfl
        · exact absurd hb hemp
      have hcond : (!false && !(buildMap old).isEmpty) = true := by
        rw [hempf]
        rfl
      have hT : selectTargets false none (buildMap old) urls =
          urls.filter (fun it => (mapGet (buildMap old) it.1).isNone) := by
        unfold selectTargets
        rw [if_pos hcond]
      have hTsub : ∀ it ∈ selectTargets false none (buildMap old) urls,
          it ∈ urls := by
        intro it hit
        rw [hT] at hit
        exact (List.mem_filter.mp hit).1
      have hokT : ∀ it ∈ selectTargets false none (buildMap old) urls,
          (pages it.1).isSome = true := fun it hit => hok it (hTsub it hit)
      have hSurl := filterMap_scrape_urls genId parse now (buildMap old)
        pages hokT
      have hTnd : ((selectTargets false none (buildMap old) urls).map
          Prod.fst).Nodup := by
        rw [hT]
        exact List.Nodup.sublist
          (List.Sublist.map Prod.fst (List.filter_sublist urls)) hnd
      rw [hcor]
      unfold mergedState
      rw [if_pos hcond]
      rw [mergeKept_corpus]
      unfold scrapeLoop
      rw [scrapeLoop_go_corpus]
      simp only [List.nil_append]
      simp only [hSurl]
      have hkeep : ((buildMap old).filter fun kv =>
          !decide (kv.1 ∈ (selectTargets false none (buildMap old) urls).map
            Prod.fst)) = buildMap old := by
        apply List.filter_eq_self.mpr
        intro kv hkv
        simp only [Bool.not_eq_eq_eq_not, Bool.not_true, decide_eq_false_iff_not]
        intro hcmem
        rcases List.mem_map.mp hcmem with ⟨it, hitT, hiteq⟩
        have hpred : (mapGet (buildMap old) it.1).isNone = true := by
          have hh := (List.mem_filter.mp (hT ▸ hitT)).2
          simpa using hh
        obtain ⟨_, hget⟩ := mapGet_self_of_mem_buildMap hkv
        rw [hiteq, hget] at hpred
        simp at hpred
      rw [hkeep]
      rw [countUrl_append]
      have hSnd : ((List.filterMap (fun it =>
          scrapePage genId parse now (buildMap old) (pages it.1) it.1 it.2)
          (selectTargets false none (buildMap old) urls)).map
            ContentRecord.url).Nodup := by
        rw [hSurl]
        exact hTnd
      rw [countUrl_of_nodup hSnd u, hSurl]
      have hKurl : ((List.map (fun kv =>
          ({ kv.2 with lastChecked := now } : ContentRecord))
          (buildMap old)).map ContentRecord.url) =
            (buildMap old).map Prod.fst := by
        rw [List.map_map]
        apply List.map_congr_left
        intro kv hkv
        have := (mapGet_self_of_mem_buildMap hkv).1
        simpa using this
      have hKnd : ((List.map (fun kv =>
          ({ kv.2 with lastChecked := now } : ContentRecord))
          (buildMap old)).map ContentRecord.url).Nodup := by
        rw [hKurl]
        exact hgm.1
      rw [countUrl_of_nodup hKnd u, hKurl]
      by_cases hg : (mapGet (buildMap old) u).isSome = true
      · have hmemE : u ∈ (buildMap old).map Prod.fst :=
          (mapGet_isSome_iff _ u).mp hg
        have hnotT : u ∉ (selectTargets false none (buildMap old) urls).map
            Prod.fst := by
          intro hc
          rcases List.mem_map.mp hc with ⟨it, hitT, rfl⟩
          have hpred : (mapGet (buildMap old) it.1).isNone = true := by
            have hh := (List.mem_filter.mp (hT ▸ hitT)).2
            simpa using hh
          rw [Option.isNone_iff_eq_none] at hpred
          rw [hpred] at hg
          simp at hg
        simp [hnotT, hmemE, hg]
      · have hnotE : u ∉ (buildMap old).map Prod.fst :=
          fun hc => hg ((mapGet_isSome_iff _ u).mpr hc)
        have hTiff : u ∈ (selectTargets false none (buildMap old) urls).map
            Prod.fst ↔ u ∈ urls.map Prod.fst := by
          constructor
          · intro hc
            rcases List.mem_map.mp hc with ⟨it, hitT, rfl⟩
            exact List.mem_map.mpr ⟨it, hTsub it hitT, rfl⟩
          · intro hc
            rcases List.mem_map.mp hc with ⟨it, hitu, rfl⟩
            apply List.mem_map.mpr
            refine ⟨it, ?_, rfl⟩
            rw [hT]
            apply List.mem_filter.mpr
            refine ⟨hitu, ?_⟩
            cases hmg : mapGet (buildMap old) it.1 with
            | none => simp [hmg]
            | some e =>
              rw [hmg] at hg
              simp at hg
        by_cases hu : u ∈ urls.map Prod.fst
        · simp [hTiff.mpr hu, hnotE, hg, hu]
        · have hnt : u ∉ (selectTargets false none (buildMap old) urls).map
              Prod.fst := fun hc => hu (hTiff.mp hc)
          simp [hnt, hnotE, hg, hu]

/-- Result of the normal-mode run over `w2old`/`w2urls`. -/
def w2bres : RunResult :=
  (runMain wGenId wParse wNow false none wPages [w2old] w2urls).getD default

/-- C2 amended-theorem witness: in the normal-mode run, old URL `c`
(absent from the discovery set) still has exactly one corpus record. -/
theorem run_normal_corpus_unique_witness :
    countUrl w2bres.corpus (cl "c") = 1 :=
  (run_normal_corpus_unique (by decide) (by decide)
      (show runMain wGenId wParse wNow false none wPages [w2old] w2urls =
          some w2bres by decide)
      (cl "c")).trans (by decide)

/-! ## Sitemap URL discovery (`hinge-monitor.js` lines 1025–1075)

`fetchSitemapUrls` scans the sitemap XML with the global regex
`/<url>\s*<loc>([^<]+)<\/loc>(?:\s*<lastmod>([^<]+)<\/lastmod>)?/g`
(`urlPattern.exec` loop) and keeps the entries whose URL contains one of
five content substrings.  The scanner below implements the regex's
left-to-right exec loop: at each position try the pattern — greedy
`\s*`, greedy `[^<]+` (both exact here, since the following regex
character is never in the repeated class) and the greedy optional
lastmod group (nothing follows it, so no backtracking into it) — else
advance one character. -/

/-- JS `\s` on the ASCII whitespace the sitemap can contain. -/
def isWs (c : Char) : Bool :=
  c = ' ' || c = '\t' || c = '\n' || c = '\r'

/-- Drop an exact literal from the front of the input. -/
def dropLit : List Char → List Char → Option (List Char)
  | [], cs => some cs
  | _ :: _, [] => none
  | l :: ls, c :: cs => if c = l then dropLit ls cs else none

/-- One attempt of the sitemap regex at the current position: `<url>`,
`\s*`, `<loc>`, capture `[^<]+`, `</loc>`, then optionally `\s*`,
`<lastmod>`, capture `[^<]+`, `</lastmod>`.  Returns the captures and
the remaining input after the match. -/
def tryMatch (cs : List Char) :
    Option ((List Char × Option (List Char)) × List Char) :=
  match dropLit (cl "<url>") cs with
  | none => none
  | some r1 =>
    match dropLit (cl "<loc>") (r1.dropWhile isWs) with
    | none => none
    | some r3 =>
      let loc := r3.takeWhile fun c => !(c = '<')
      if loc.isEmpty then none
      else
        match dropLit (cl "</loc>") (r3.dropWhile fun c => !(c = '<')) with
        | none => none
        | some r5 =>
          match dropLit (cl "<lastmod>") (r5.dropWhile isWs) with
          | none => some ((loc, none), r5)
          | some r7 =>
            let lm := r7.takeWhile fun c => !(c = '<')
            if lm.isEmpty then some ((loc, none), r5)
            else
              match dropLit (cl "</lastmod>")
                  (r7.dropWhile fun c => !(c = '<')) with
              | none => some ((loc, none), r5)
              | some r9 => some ((loc, some lm), r9)

theorem dropLit_length :
    ∀ {l cs r : List Char}, dropLit l cs = some r →
      r.length + l.length = cs.length := by
  intro l
  induction l with
  | nil =>
    intro cs r h
    injection h with h
    simp [h]
  | cons a as ih =>
    intro cs r h
    cases cs with
    | nil => cases h
    | cons c ct =>
      by_cases hc : c = a
      · rw [show dropLit (a :: as) (c :: ct) =
            dropLit as ct by simp [dropLit, hc]] at h
        have := ih h
        simp only [List.length_cons]
        omega
      · rw [show dropLit (a :: as) (c :: ct) = none by
            simp [dropLit, hc]] at h
        cases h

theorem dropWhile_length_le (p : Char → Bool) (l : List Char) :
    (l.dropWhile p).length ≤ l.length := by
  induction l with
  | nil => simp [List.dropWhile]
  | cons a t ih =>
    by_cases h : p a <;> simp [List.dropWhile, h] <;> omega

theorem tryMatch_rem_lt {cs : List Char}
    {er : (List Char × Option (List Char)) × List Char}
    (h : tryMatch cs = some er) : er.2.length < cs.length := by
  unfold tryMatch at h
  cases h1 : dropLit (cl "<url>") cs with
  | none => rw [h1] at h; cases h
  | some r1 =>
    rw [h1] at h
    dsimp only at h
    have hl1 : r1.length + 5 = cs.length := by
      have := dropLit_length h1
      simpa using this
    have hw1 : (r1.dropWhile isWs).length ≤ r1.length :=
      dropWhile_length_le _ _
    cases h2 : dropLit (cl "<loc>") (r1.dropWhile isWs) with
    | none => rw [h2] at h; cases h
    | some r3 =>
      rw [h2] at h
      dsimp only at h
      have hl2 : r3.length + 5 = (r1.dropWhile isWs).length := by
        have := dropLit_length h2
        simpa using this
      have hw3 : (r3.dropWhile fun c => !(c = '<')).length ≤ r3.length :=
        dropWhile_length_le _ _
      by_cases hloc : (r3.takeWhile fun c => !(c = '<')).isEmpty
      · rw [if_pos hloc] at h; cases h
      · rw [if_neg hloc] at h
        cases h4 : dropLit (cl "</loc>")
            (r3.dropWhile fun c => !(c = '<')) with
        | none => rw [h4] at h; cases h
        | some r5 =>
          rw [h4] at h
          dsimp only at h
          have hl4 : r5.length + 6 =
              (r3.dropWhile fun c => !(c = '<')).length := by
            have := dropLit_length h4
            simpa using this
          have hr5 : r5.length < cs.length := by omega
          cases h5 : dropLit (cl "<lastmod>") (r5.dropWhile isWs) with
          | none =>
            rw [h5] at h
            injection h with h
            rw [← h]
            exact hr5
          | some r7 =>
            rw [h5] at h
            dsimp only at h
            have hl5 : r7.length + 9 = (r5.dropWhile isWs).length := by
              have := dropLit_length h5
              simpa using this
            have hw5 : (r5.dropWhile isWs).length ≤ r5.length :=
              dropWhile_length_le _ _
            by_cases hlm : (r7.takeWhile fun c => !(c = '<')).isEmpty
            · rw [if_pos hlm] at h
              injection h with h
              rw [← h]
              exact hr5
            · rw [if_neg hlm] at h
              cases h6 : dropLit (cl "</lastmod>")
                  (r7.dropWhile fun c => !(c = '<')) with
              | none =>
                rw [h6] at h
                injection h with h
                rw [← h]
                exact hr5
              | some r9 =>
                rw [h6] at h
                dsimp only at h
                injection h with h
                have hl6 : r9.length + 10 =
                    (r7.dropWhile fun c => !(c = '<')).length := by
                  have := dropLit_length h6
                  simpa using this
                have hw7 : (r7.dropWhile fun c => !(c = '<')).length ≤
                    r7.length := dropWhile_length_le _ _
                rw [← h]
                simp only
                omega

/-- The fueled exec loop: try a match at the current position, else
advance one character; fuel `cs.length` always suffices. -/
def scanAux : Nat → List Char → List (List Char × Option (List Char))
  | 0, _ => []
  | fuel + 1, cs =>
    match tryMatch cs with
    | some er => er.1 :: scanAux fuel er.2
    | none =>
      match cs with
      | [] => []
      | _ :: t => scanAux fuel t

/-- All regex matches of the sitemap pattern, in document order. -/
def sitemapScan (cs : List Char) : List (List Char × Option (List Char)) :=
  scanAux cs.length cs

/-- The content filter of `fetchSitemapUrls` (lines 1041–1045). -/
def sitemapContentFilter (u : List Char) : Bool :=
  hasSub u (cl "/resources/") || hasSub u (cl "/for-organizations/") ||
    hasSub u (cl "/acquisition/") || hasSub u (cl "/for-individuals/") ||
    hasSub u (cl "-webinar/")

/-- `fetchSitemapUrls` on the fetched sitemap body: every regex match
whose URL contains a content substring is pushed, in order, with its
optional lastmod (`match[2] || null`). -/
def fetchSitemapUrls (xml : List Char) :
    List (List Char × Option (List Char)) :=
  (sitemapScan xml).filter fun e => sitemapContentFilter e.1

theorem scanAux_nil : ∀ f, scanAux f [] = [] := by
  intro f
  cases f with
  | zero => rfl
  | succ f => rfl

theorem scanAux_some {cs : List Char}
    {er : (List Char × Option (List Char)) × List Char}
    (h : tryMatch cs = some er) (f : Nat) :
    scanAux (f + 1) cs = er.1 :: scanAux f er.2 := by
  simp [scanAux, h]

theorem scanAux_cons_none {c : Char} {t : List Char}
    (h : tryMatch (c :: t) = none) (f : Nat) :
    scanAux (f + 1) (c :: t) = scanAux f t := by
  simp [scanAux, h]

theorem scanAux_fuel_eq :
    ∀ f1 f2 cs, cs.length ≤ f1 → cs.length ≤ f2 →
      scanAux f1 cs = scanAux f2 cs := by
  intro f1
  induction f1 with
  | zero =>
    intro f2 cs h1 _
    have : cs = [] := List.eq_nil_of_length_eq_zero (Nat.le_zero.mp h1)
    rw [this, scanAux_nil, scanAux_nil]
  | succ f ih =>
    intro f2 cs h1 h2
    cases cs with
    | nil => rw [scanAux_nil, scanAux_nil]
    | cons c t =>
      cases f2 with
      | zero => simp at h2
      | succ f2' =>
        cases h : tryMatch (c :: t) with
        | some er =>
          rw [scanAux_some h f, scanAux_some h f2']
          have hlt := tryMatch_rem_lt h
          simp only [List.length_cons] at hlt h1 h2
          exact congrArg _ (ih f2' er.2 (by omega) (by omega))
        | none =>
          rw [scanAux_cons_none h f, scanAux_cons_none h f2']
          simp only [List.length_cons] at h1 h2
          exact ih f2' t (by omega) (by omega)
/-- An XML sitemap rendered from entries, one
`<url><loc>…</loc>[<lastmod>…</lastmod>]</url>` element per entry. -/
def renderEntry (e : List Char × Option (List Char)) : List Char :=
  cl "<url>" ++ (cl "<loc>" ++ (e.1 ++ (cl "</loc>" ++
    ((match e.2 with
      | none => ([] : List Char)
      | some m => cl "<lastmod>" ++ (m ++ cl "</lastmod>")) ++
      cl "</url>"))))

/-- Concatenation of the rendered entries. -/
def renderSitemap : List (List Char × Option (List Char)) → List Char
  | [] => []
  | e :: es => renderEntry e ++ renderSitemap es

/-- Well-formed sitemap entry: non-empty captures without `'<'`. -/
def wfEntry (e : List Char × Option (List Char)) : Prop :=
  e.1 ≠ [] ∧ '<' ∉ e.1 ∧ e.2 ≠ some [] ∧ '<' ∉ e.2.getD []

instance (e : List Char × Option (List Char)) : Decidable (wfEntry e) := by
  unfold wfEntry
  infer_instance

theorem dropLit_self : ∀ l rest : List Char, dropLit l (l ++ rest) = some rest := by
  intro l
  induction l with
  | nil => intro rest; rfl
  | cons a as ih => intro rest; simp [dropLit, ih]

theorem dropWhile_isWs_lt (x : List Char) :
    (('<' :: x).dropWhile isWs) = '<' :: x := by
  simp [List.dropWhile, show isWs '<' = false by decide]

theorem takeWhile_app_lt {u : List Char} (hu : '<' ∉ u) (r : List Char) :
    ((u ++ '<' :: r).takeWhile fun c => !(c = '<')) = u := by
  induction u with
  | nil => simp [List.takeWhile]
  | cons a t ih =>
    rw [List.mem_cons, not_or] at hu
    have ha : a ≠ '<' := fun h2 => hu.1 h2.symm
    simp only [List.cons_append]
    simp [List.takeWhile, ha, ih hu.2]

theorem dropWhile_app_lt {u : List Char} (hu : '<' ∉ u) (r : List Char) :
    ((u ++ '<' :: r).dropWhile fun c => !(c = '<')) = '<' :: r := by
  induction u with
  | nil => simp [List.dropWhile]
  | cons a t ih =>
    rw [List.mem_cons, not_or] at hu
    have ha : a ≠ '<' := fun h2 => hu.1 h2.symm
    simp only [List.cons_append]
    simp [List.dropWhile, ha, ih hu.2]

theorem clLocClose_cons (z : List Char) :
    cl "</loc>" ++ z = '<' :: (cl "/loc>" ++ z) := rfl

theorem clLastmodClose_cons (z : List Char) :
    cl "</lastmod>" ++ z = '<' :: (cl "/lastmod>" ++ z) := rfl

theorem dropWhile_isWs_clLocOpen (y : List Char) :
    List.dropWhile isWs (cl "<loc>" ++ y) = cl "<loc>" ++ y := by
  rw [show cl "<loc>" ++ y = '<' :: (cl "loc>" ++ y) from rfl]
  exact dropWhile_isWs_lt _

theorem dropWhile_isWs_clUrlClose (y : List Char) :
    List.dropWhile isWs (cl "</url>" ++ y) = cl "</url>" ++ y := by
  rw [show cl "</url>" ++ y = '<' :: ('/' :: (cl "url>" ++ y)) from rfl]
  exact dropWhile_isWs_lt _

theorem dropWhile_isWs_clLastmodOpen (y : List Char) :
    List.dropWhile isWs (cl "<lastmod>" ++ y) = cl "<lastmod>" ++ y := by
  rw [show cl "<lastmod>" ++ y = '<' :: (cl "lastmod>" ++ y) from rfl]
  exact dropWhile_isWs_lt _

theorem dropLit_lastmodOpen_urlClose (y : List Char) :
    dropLit (cl "<lastmod>") (cl "</url>" ++ y) = none := by
  rw [show cl "<lastmod>" = '<' :: ('l' :: cl "astmod>") from rfl,
    show cl "</url>" ++ y = '<' :: ('/' :: (cl "url>" ++ y)) from rfl]
  simp [dropLit, show ¬(('/' : Char) = 'l') by decide]

theorem isEmpty_false_of_ne_nil {u : List Char} (h : u ≠ []) :
    u.isEmpty = false := by
  cases u with
  | nil => exact absurd rfl h
  | cons a t => rfl

theorem tryMatch_render (e : List Char × Option (List Char))
    (rest : List Char) (hwf : wfEntry e) :
    tryMatch (renderEntry e ++ rest) =
      some ((e.1, e.2), cl "</url>" ++ rest) := by
  obtain ⟨u, lm⟩ := e
  obtain ⟨hne, hlt, hm1, hm2⟩ := hwf
  simp only at hne hlt hm1 hm2
  cases lm with
  | none =>
    show tryMatch (renderEntry (u, none) ++ rest) = _
    unfold renderEntry tryMatch
    simp only [List.append_assoc, List.nil_append]
    rw [dropLit_self]
    dsimp only
    rw [dropWhile_isWs_clLocOpen, dropLit_self]
    dsimp only
    rw [clLocClose_cons, ← List.append_assoc]
    rw [takeWhile_app_lt hlt, dropWhile_app_lt hlt]
    rw [if_neg (by rw [isEmpty_false_of_ne_nil hne]; simp :
      ¬(u.isEmpty = true))]
    rw [show ('<' :: (cl "/loc>" ++ cl "</url>" ++ rest) : List Char) =
      cl "</loc>" ++ (cl "</url>" ++ rest) by rw [clLocClose_cons]; simp]
    rw [dropLit_self]
    dsimp only
    rw [dropWhile_isWs_clUrlClose, dropLit_lastmodOpen_urlClose]
  | some m =>
    have hmne : m ≠ [] := fun hnil => hm1 (by rw [hnil])
    have hmlt : '<' ∉ m := hm2
    show tryMatch (renderEntry (u, some m) ++ rest) = _
    unfold renderEntry tryMatch
    simp only [List.append_assoc]
    rw [dropLit_self]
    dsimp only
    rw [dropWhile_isWs_clLocOpen, dropLit_self]
    dsimp only
    rw [clLocClose_cons, ← List.append_assoc]
    rw [takeWhile_app_lt hlt, dropWhile_app_lt hlt]
    rw [if_neg (by rw [isEmpty_false_of_ne_nil hne]; simp :
      ¬(u.isEmpty = true))]
    rw [show ('<' :: ((cl "/loc>" ++ cl "<lastmod>") ++
        (m ++ (cl "</lastmod>" ++ (cl "</url>" ++ rest)))) : List Char) =
      cl "</loc>" ++ (cl "<lastmod>" ++
        (m ++ (cl "</lastmod>" ++ (cl "</url>" ++ rest)))) from rfl]
    rw [dropLit_self]
    dsimp only
    rw [dropWhile_isWs_clLastmodOpen, dropLit_self]
    dsimp only
    rw [clLastmodClose_cons]
    rw [takeWhile_app_lt hmlt, dropWhile_app_lt hmlt]
    rw [if_neg (by rw [isEmpty_false_of_ne_nil hmne]; simp :
      ¬(m.isEmpty = true))]
    rw [show ('<' :: (cl "/lastmod>" ++ (cl "</url>" ++ rest)) : List Char) =
      cl "</lastmod>" ++ (cl "</url>" ++ rest) from
      (clLastmodClose_cons _).symm]
    rw [dropLit_self]

theorem tryMatch_skip1 {c : Char} (h : c ≠ '<') (cs : List Char) :
    tryMatch (c :: cs) = none := by
  unfold tryMatch
  rw [show (cl "<url>" : List Char) = '<' :: cl "url>" from rfl]
  rw [show dropLit ('<' :: cl "url>") (c :: cs) = none by simp [dropLit, h]]

theorem tryMatch_skip2 {c : Char} (h : c ≠ 'u') (cs : List Char) :
    tryMatch ('<' :: c :: cs) = none := by
  unfold tryMatch
  rw [show (cl "<url>" : List Char) = '<' :: ('u' :: cl "rl>") from rfl]
  rw [show dropLit ('<' :: ('u' :: cl "rl>")) ('<' :: c :: cs) = none by
    simp [dropLit, h]]

theorem scanAux_skip_urlClose (f : Nat) (rest : List Char) :
    scanAux (f + 6) (cl "</url>" ++ rest) = scanAux f rest := by
  rw [show (cl "</url>" ++ rest : List Char) =
    '<' :: '/' :: 'u' :: 'r' :: 'l' :: '>' :: rest from rfl]
  rw [scanAux_cons_none (tryMatch_skip2 (by decide) _) (f + 5)]
  rw [scanAux_cons_none (tryMatch_skip1 (by decide) _) (f + 4)]
  rw [scanAux_cons_none (tryMatch_skip1 (by decide) _) (f + 3)]
  rw [scanAux_cons_none (tryMatch_skip1 (by decide) _) (f + 2)]
  rw [scanAux_cons_none (tryMatch_skip1 (by decide) _) (f + 1)]
  rw [scanAux_cons_none (tryMatch_skip1 (by decide) _) f]

theorem renderEntry_len_ge (e : List Char × Option (List Char)) :
    7 ≤ (renderEntry e).length := by
  obtain ⟨u, lm⟩ := e
  cases lm <;>
    simp [renderEntry, show (cl "<url>").length = 5 from rfl,
      show (cl "<loc>").length = 5 from rfl,
      show (cl "</loc>").length = 6 from rfl,
      show (cl "<lastmod>").length = 9 from rfl,
      show (cl "</lastmod>").length = 10 from rfl,
      show (cl "</url>").length = 6 from rfl] <;> omega

theorem scanAux_render :
    ∀ (es : List (List Char × Option (List Char))) (f : Nat),
      (∀ e ∈ es, wfEntry e) → (renderSitemap es).length ≤ f →
      scanAux f (renderSitemap es) = es := by
  intro es
  induction es with
  | nil =>
    intro f _ _
    rw [show renderSitemap [] = [] from rfl, scanAux_nil]
  | cons e tl ih =>
    intro f hwf hlen
    rw [show renderSitemap (e :: tl) = renderEntry e ++ renderSitemap tl
      from rfl] at hlen ⊢
    have hre := renderEntry_len_ge e
    have hlapp : (renderEntry e ++ renderSitemap tl).length =
        (renderEntry e).length + (renderSitemap tl).length := by simp
    cases f with
    | zero => omega
    | succ f2 =>
      rw [scanAux_some (tryMatch_render e _ (hwf e (List.mem_cons_self e tl))) f2]
      dsimp only
      have hurlen : (cl "</url>" ++ renderSitemap tl).length =
          (renderSitemap tl).length + 6 := by
        rw [List.length_append, show (cl "</url>").length = 6 from rfl]
        omega
      rw [scanAux_fuel_eq f2 ((renderSitemap tl).length + 6) _
        (by omega) (by omega)]
      rw [scanAux_skip_urlClose]
      rw [ih (renderSitemap tl).length
        (fun x hx => hwf x (List.mem_cons_of_mem e hx)) (le_refl _)]


theorem tryMatch_lastmod_ne_nil {cs : List Char}
    {er : (List Char × Option (List Char)) × List Char}
    (h : tryMatch cs = some er) : er.1.2 ≠ some [] := by
  unfold tryMatch at h
  cases h1 : dropLit (cl "<url>") cs with
  | none => rw [h1] at h; cases h
  | some r1 =>
    rw [h1] at h
    dsimp only at h
    cases h2 : dropLit (cl "<loc>") (r1.dropWhile isWs) with
    | none => rw [h2] at h; cases h
    | some r3 =>
      rw [h2] at h
      dsimp only at h
      by_cases hloc : (r3.takeWhile fun c => !(c = '<')).isEmpty
      · rw [if_pos hloc] at h; cases h
      · rw [if_neg hloc] at h
        cases h4 : dropLit (cl "</loc>")
            (r3.dropWhile fun c => !(c = '<')) with
        | none => rw [h4] at h; cases h
        | some r5 =>
          rw [h4] at h
          dsimp only at h
          cases h5 : dropLit (cl "<lastmod>") (r5.dropWhile isWs) with
          | none =>
            rw [h5] at h
            injection h with h
            rw [← h]
            simp
          | some r7 =>
            rw [h5] at h
            dsimp only at h
            by_cases hlm : (r7.takeWhile fun c => !(c = '<')).isEmpty
            · rw [if_pos hlm] at h
              injection h with h
              rw [← h]
              simp
            · rw [if_neg hlm] at h
              cases h6 : dropLit (cl "</lastmod>")
                  (r7.dropWhile fun c => !(c = '<')) with
              | none =>
                rw [h6] at h
                injection h with h
                rw [← h]
                simp
              | some r9 =>
                rw [h6] at h
                injection h with h
                rw [← h]
                simp only
                intro hc
                injection hc with hc2
                exact hlm (by rw [hc2]; rfl)

theorem scanAux_lastmod_ne_nil :
    ∀ (f : Nat) (cs : List Char) (e : List Char × Option (List Char)),
      e ∈ scanAux f cs → e.2 ≠ some [] := by
  intro f
  induction f with
  | zero =>
    intro cs e he
    cases he
  | succ f ih =>
    intro cs e he
    cases h : tryMatch cs with
    | some er =>
      rw [scanAux_some h f] at he
      rcases List.mem_cons.mp he with rfl | htl
      · exact tryMatch_lastmod_ne_nil h
      · exact ih er.2 e htl
    | none =>
      cases cs with
      | nil =>
        rw [scanAux_nil] at he
        cases he
      | cons c t =>
        rw [scanAux_cons_none h f] at he
        exact ih t e he

/-- A sitemap body listing the same content URL twice, a content URL
with a query string, and the listing page itself. -/
def c5xml : List Char :=
  cl "<url><loc>https://www.hingehealth.com/resources/a</loc></url><url><loc>https://www.hingehealth.com/resources/a</loc></url><url><loc>https://www.hingehealth.com/resources/?page=2</loc></url><url><loc>https://www.hingehealth.com/resources/</loc></url>"

set_option maxRecDepth 10000 in
/-- C5 counterexample: `fetchSitemapUrls` performs no deduplication (the
duplicated URL appears twice), does not exclude URLs carrying a query
string, and does not exclude the listing/prefix page itself — the result
is just the regex matches whose URL contains a content substring. -/
theorem fetchSitemapUrls_counterexample :
    fetchSitemapUrls c5xml =
      [(cl "https://www.hingehealth.com/resources/a", none),
       (cl "https://www.hingehealth.com/resources/a", none),
       (cl "https://www.hingehealth.com/resources/?page=2", none),
       (cl "https://www.hingehealth.com/resources/", none)] := by decide

/-- C5 (amended): on any well-formed sitemap, URL discovery returns the
sitemap's `(url, lastmod?)` entries in document order filtered to URLs
containing one of the content substrings `/resources/`,
`/for-organizations/`, `/acquisition/`, `/for-individuals/`,
`-webinar/` — retaining duplicates and not excluding the listing page or
query/fragment URLs. -/
theorem fetchSitemapUrls_render
    (es : List (List Char × Option (List Char)))
    (hwf : ∀ e ∈ es, wfEntry e) :
    fetchSitemapUrls (renderSitemap es) =
      es.filter fun e => sitemapContentFilter e.1 := by
  unfold fetchSitemapUrls sitemapScan
  rw [scanAux_render es (renderSitemap es).length hwf (le_refl _)]

/-- Sitemap entries for the C5 witness: one content URL with a lastmod,
one non-content URL. -/
def w5es : List (List Char × Option (List Char)) :=
  [(cl "https://www.hingehealth.com/resources/articles/a",
    some (cl "2024-01-06")),
   (cl "https://www.hingehealth.com/about", none)]

set_option maxRecDepth 10000 in
/-- C5 amended-theorem witness: discovery on the rendered sitemap keeps
exactly the content entry, with its lastmod. -/
theorem fetchSitemapUrls_render_witness :
    fetchSitemapUrls (renderSitemap w5es) =
      [(cl "https://www.hingehealth.com/resources/articles/a",
        some (cl "2024-01-06"))] :=
  (fetchSitemapUrls_render w5es (by decide)).trans (by decide)

/-- C10: `scrapePage` derives the stored `publishDate` from the sitemap
lastmod whenever one is present (ignoring the page-extracted date), and
uses the page-extracted date only when the lastmod is null; discovery
never produces an empty-string lastmod (the regex capture `[^<]+` is
non-empty and `match[2] || null` maps absence to null), so JS truthiness
of the lastmod coincides with its presence. -/
theorem scrapePage_publishDate_source (genId : List Char → List Char)
    (parse : List Char → Option (List Char)) (now : List Char)
    (emap : List (List Char × ContentRecord)) (d : PageData)
    (url : List Char) :
    (∀ s : List Char, s ≠ [] →
      (scrapedRecord genId parse now emap d url (some s)).publishDate =
        extractDate parse (some s)) ∧
    ((scrapedRecord genId parse now emap d url none).publishDate =
      extractDate parse d.publishDate) ∧
    (∀ (xml : List Char) (e : List Char × Option (List Char)),
      e ∈ sitemapScan xml → e.2 ≠ some []) := by
  refine ⟨?_, ?_, ?_⟩
  · intro s hs
    rw [scrapedRecord_publishDate]
    rw [if_pos ?_]
    show jsTruthy (some s) = true
    simp [jsTruthy, isEmpty_false_of_ne_nil hs]
  · rw [scrapedRecord_publishDate]
    rw [if_neg ?_]
    show ¬(jsTruthy none = true)
    simp [jsTruthy]
  · intro xml e he
    exact scanAux_lastmod_ne_nil xml.length xml e he

/-- C10 witness: with a present lastmod the record's publishDate comes
from the lastmod, not from the page's own date. -/
theorem scrapePage_publishDate_source_witness :
    (scrapedRecord wGenId wParse wNow [] wPage (cl "u")
        (some (cl "2024-01-06"))).publishDate =
      extractDate wParse (some (cl "2024-01-06")) :=
  (scrapePage_publishDate_source wGenId wParse wNow [] wPage (cl "u")).1
    (cl "2024-01-06") (by decide)

end HingeMonitor
